import Mathlib

/-!
Verification of the indexing-and-retrieval core of the
AI-Powered-Safety-Standards-Analyzer repository
(`src/components/document_processor.py`), as a shallow embedding.

Modelling conventions:
* Python strings are sequences of code points, modelled as `List Char`
  (`PyStr`).  The Python operations used by the source
  (`str.split("\n\n")`, `str.strip()`, `str.split()` with no argument,
  slicing `[:n]`, `len`, `os.path.basename`) are re-implemented below by
  structural recursion so every concrete run kernel-evaluates.
* Python floats are idealised by exact rational arithmetic.  To keep
  everything kernel-computable, a number is an unnormalised fraction
  `Rq` of two machine-unbounded integers, with value `num / den : ℚ`
  (`Rq.val`); arithmetic never normalises, so no `Nat.gcd` reduction is
  required.  All fractions produced by the embedded code keep `den ≠ 0`.
* A cosine similarity `dot / (norm a * norm b)` is an irrational real in
  general, so the embedding carries the pair
  `(dot a b, normSq a * normSq b)`: its mathematical value is
  `num / √den2`, and `den2`'s value is `0` exactly when one of the two
  vectors has zero norm, which is exactly when NumPy's float division
  `0.0 / 0.0` yields `NaN`.
* `np.argsort` (introsort falls back to a stable insertion sort at the
  array sizes reachable through this code path, and NaN sorts last) is
  modelled as a stable ascending sort, realised by sorting the triples
  `(nan-flag, signed-square of the similarity, index)` under their strict
  lexicographic order.
-/

namespace SSA

/-! ### Exact fraction arithmetic (idealised floats) -/

/-- An unnormalised fraction of integers; its rational value is `num / den`.
`den = 0` never occurs in fractions produced by the embedded operations. -/
structure Rq where
  num : Int
  den : Int
deriving DecidableEq

/-- The rational value of a fraction (with the `x / 0 = 0` convention of `ℚ`). -/
def Rq.val (x : Rq) : ℚ := (x.num : ℚ) / (x.den : ℚ)

/-- Addition of fractions. -/
def Rq.add (x y : Rq) : Rq := ⟨x.num * y.den + y.num * x.den, x.den * y.den⟩

/-- Multiplication of fractions. -/
def Rq.mul (x y : Rq) : Rq := ⟨x.num * y.num, x.den * y.den⟩

/-- Division of fractions. -/
def Rq.div (x y : Rq) : Rq := ⟨x.num * y.den, x.den * y.num⟩

/-- Absolute value of a fraction. -/
def Rq.habs (x : Rq) : Rq := ⟨|x.num|, |x.den|⟩

/-- The integer fraction `n / 1`. -/
def Rq.ofInt (n : Int) : Rq := ⟨n, 1⟩

/-- Signed numerator once the denominator is made nonnegative
(`0` when the denominator is `0`, so that `snum / |den|` is still `val`). -/
def Rq.snum (x : Rq) : Int := if x.den < 0 then -x.num else if x.den = 0 then 0 else x.num

/-- Absolute denominator. -/
def Rq.aden (x : Rq) : Int := |x.den|

/-- Boolean value-comparison `val x ≤ val y`, computed by cross-multiplication
over the integers only. -/
def Rq.ble (x y : Rq) : Bool :=
  if x.aden = 0 then decide (0 ≤ y.snum)
  else if y.aden = 0 then decide (x.snum ≤ 0)
  else decide (x.snum * y.aden ≤ y.snum * x.aden)

/-- Boolean value-comparison `val x < val y`. -/
def Rq.blt (x y : Rq) : Bool := !(Rq.ble y x)

/-- Boolean value-equality `val x = val y`. -/
def Rq.beq (x y : Rq) : Bool := Rq.ble x y && Rq.ble y x

theorem Rq.val_eq_snum_div_aden (x : Rq) : x.val = (x.snum : ℚ) / (x.aden : ℚ) := by
  rcases x with ⟨n, d⟩
  simp only [Rq.val, Rq.snum, Rq.aden]
  rcases lt_trichotomy d 0 with h | h | h
  · rw [if_pos h, abs_of_neg h]
    push_cast
    rw [neg_div_neg_eq]
  · subst h; simp
  · rw [if_neg (by omega), if_neg (by omega), abs_of_pos h]

theorem Rq.snum_eq_zero_of_aden_eq_zero {x : Rq} (h : x.aden = 0) : x.snum = 0 := by
  rcases x with ⟨n, d⟩
  simp only [Rq.aden, abs_eq_zero] at h
  simp [Rq.snum, h]

theorem Rq.aden_nonneg (x : Rq) : 0 ≤ x.aden := abs_nonneg _

theorem Rq.ble_iff {x y : Rq} : Rq.ble x y = true ↔ x.val ≤ y.val := by
  rw [Rq.val_eq_snum_div_aden, Rq.val_eq_snum_div_aden, Rq.ble]
  rcases eq_or_lt_of_le (Rq.aden_nonneg x) with hx | hx
  · rw [if_pos hx.symm, Rq.snum_eq_zero_of_aden_eq_zero hx.symm]
    rcases eq_or_lt_of_le (Rq.aden_nonneg y) with hy | hy
    · rw [Rq.snum_eq_zero_of_aden_eq_zero hy.symm]
      simp
    · have hy' : (0 : ℚ) < (y.aden : ℚ) := by exact_mod_cast hy
      rw [← hx]
      push_cast
      rw [zero_div, le_div_iff hy', zero_mul]
      simp
  · rw [if_neg (by omega)]
    have hx' : (0 : ℚ) < (x.aden : ℚ) := by exact_mod_cast hx
    rcases eq_or_lt_of_le (Rq.aden_nonneg y) with hy | hy
    · rw [if_pos hy.symm, Rq.snum_eq_zero_of_aden_eq_zero hy.symm, ← hy]
      push_cast
      rw [zero_div, div_le_iff hx', zero_mul]
      simp
    · rw [if_neg (by omega)]
      have hy' : (0 : ℚ) < (y.aden : ℚ) := by exact_mod_cast hy
      rw [div_le_div_iff hx' hy', decide_eq_true_eq]
      exact_mod_cast Iff.rfl

theorem Rq.blt_iff {x y : Rq} : Rq.blt x y = true ↔ x.val < y.val := by
  rw [Rq.blt, Bool.not_eq_true', ← not_le, ← Rq.ble_iff (x := y) (y := x)]
  simp

theorem Rq.beq_iff {x y : Rq} : Rq.beq x y = true ↔ x.val = y.val := by
  rw [Rq.beq, Bool.and_eq_true, Rq.ble_iff, Rq.ble_iff, le_antisymm_iff]

theorem Rq.val_mul (x y : Rq) : (Rq.mul x y).val = x.val * y.val := by
  simp only [Rq.mul, Rq.val]
  push_cast
  rw [div_mul_div_comm]

theorem Rq.val_div (x y : Rq) : (Rq.div x y).val = x.val / y.val := by
  simp only [Rq.div, Rq.val]
  push_cast
  rw [div_div_div_eq, mul_comm (x.den : ℚ) (y.num : ℚ)]

theorem Rq.val_habs (x : Rq) : (Rq.habs x).val = |x.val| := by
  simp only [Rq.habs, Rq.val, abs_div]
  push_cast
  rfl

theorem Rq.val_add {x y : Rq} (hx : x.den ≠ 0) (hy : y.den ≠ 0) :
    (Rq.add x y).val = x.val + y.val := by
  simp only [Rq.add, Rq.val]
  have hx' : (x.den : ℚ) ≠ 0 := Int.cast_ne_zero.mpr hx
  have hy' : (y.den : ℚ) ≠ 0 := Int.cast_ne_zero.mpr hy
  push_cast
  rw [div_add_div _ _ hx' hy']
  ring_nf

theorem Rq.val_ofInt (n : Int) : (Rq.ofInt n).val = (n : ℚ) := by
  simp [Rq.ofInt, Rq.val]

/-! ### Python strings as code-point lists -/

/-- A Python string: a sequence of code points. -/
abbrev PyStr := List Char

/-- Python's notion of whitespace as used by `str.strip()` / `str.split()`. -/
def isWS (c : Char) : Bool :=
  c = ' ' || c = '\n' || c = '\t' || c = '\r' || c = '\x0b' || c = '\x0c'

/-- Python `text.split("\n\n")`: split at every non-overlapping occurrence of
two consecutive newlines, leftmost first; `"".split("\n\n") == [""]`. -/
def splitNN : PyStr → List PyStr
  | [] => [[]]
  | '\n' :: '\n' :: rest => [] :: splitNN rest
  | c :: rest =>
    match splitNN rest with
    | p :: ps => (c :: p) :: ps
    | [] => [[c]]

/-- Python `s.strip()`: remove leading and trailing whitespace. -/
def pyStrip (s : PyStr) : PyStr :=
  ((s.dropWhile isWS).reverse.dropWhile isWS).reverse

/-- Split at every character satisfying `p`, keeping empty pieces
(the helper behind Python's argumentless `str.split()`). -/
def splitP (p : Char → Bool) : PyStr → List PyStr
  | [] => [[]]
  | c :: rest =>
    if p c then [] :: splitP p rest
    else
      match splitP p rest with
      | q :: qs => (c :: q) :: qs
      | [] => [[c]]

/-- Python `len(s.split())`: the number of maximal whitespace-free runs. -/
def pyWordCount (s : PyStr) : Nat :=
  ((splitP isWS s).filter (· ≠ [])).length

/-- Python `os.path.basename`: everything after the last `/`. -/
def basename (s : PyStr) : PyStr :=
  (splitP (· = '/') s).getLastD s

/-- Decimal rendering of `n`, for the fallback titles `"Section {n}"`. -/
def natStr (n : Nat) : PyStr := Nat.toDigits 10 n

/-! ### Data model (`document_processor.py`)

`Document` and `Section` records mirror the dictionaries built at lines
95-101 and 182-189 of `document_processor.py`; an embedding is the list of
float coordinates returned by the embedding oracle. -/

/-- A document record (`document_processor.py` lines 95-101). -/
structure Document where
  id : PyStr
  filename : PyStr
  ftype : PyStr
  size : Nat
  processed_date : PyStr
deriving DecidableEq

/-- A section record (`document_processor.py` lines 182-189). -/
structure Sec where
  id : PyStr
  document_id : PyStr
  index : Nat
  title : PyStr
  content : PyStr
  word_count : Nat
deriving DecidableEq

/-- An embedding vector. -/
abbrev Embedding := List Rq

/-- The in-memory state of `DocumentProcessor`: three aligned sequences
(`self.documents`, `self.sections`, `self.embeddings`). -/
structure Store where
  documents : List Document
  sections : List Sec
  embeddings : List Embedding
deriving DecidableEq

/-- The empty state a fresh `DocumentProcessor` starts from. -/
def emptyStore : Store := ⟨[], [], []⟩

/-! ### Vector arithmetic (NumPy calls in the source) -/

/-- NumPy `np.dot` of two vectors. -/
def dotQ (a b : Embedding) : Rq :=
  (List.zipWith Rq.mul a b).foldr Rq.add (Rq.ofInt 0)

/-- The squared Euclidean norm; `np.linalg.norm a = √(normSq a)`. -/
def normSq (a : Embedding) : Rq := dotQ a a

/-- NumPy `np.mean(vs, axis=0)`: coordinatewise arithmetic mean
(`document_processor.py` line 279). -/
def vecMean : List Embedding → Embedding
  | [] => []
  | v :: rest =>
    (rest.foldl (fun a b => List.zipWith Rq.add a b) v).map
      (fun x => Rq.div x (Rq.ofInt (rest.length + 1)))

/-- The similarity of one stored embedding with the query
(`document_processor.py` lines 223-225): the float
`np.dot(e, q) / (norm e * norm q)` is the real `num / √den2` of this pair,
and is `NaN` exactly when `den2`'s value is `0`. -/
def simPair (e q : Embedding) : Rq × Rq :=
  (dotQ e q, Rq.mul (normSq e) (normSq q))

/-! ### `np.argsort` over the similarity row (lines 228)

`np.argsort` returns the indices that sort the float array ascending; at the
sizes reached through this code introsort's insertion-sort cutoff makes it
stable, and `NaN` entries are placed after every real value.  The sort key of
index `i` is the triple `(nan-flag, signed square of the similarity, i)`; its
strict lexicographic order realises exactly that stable ascending order,
because `x ↦ x·|x|` is strictly monotone, so comparing signed squares
`dot²·sign / den2` compares the similarity values `dot / √den2` themselves. -/

/-- The signed square of a similarity pair:
`(num / √den2) · |num / √den2| = num·|num| / den2`, as an exact fraction. -/
def ssqQ (s : Rq × Rq) : Rq := Rq.div (Rq.mul s.1 (Rq.habs s.1)) s.2

/-- The sort key of index `i` with similarity pair `s`:
`NaN`s (zero `den2` value) sort after every real similarity, then values
ascending, then insertion index ascending (stability). -/
def simKey (s : Rq × Rq) (i : Nat) : Nat × Rq × Nat :=
  (if Rq.beq s.2 (Rq.ofInt 0) then 1 else 0, ssqQ s, i)

/-- Lexicographic order on sort keys (by value of the middle fraction). -/
def KeyLE (a b : Nat × Rq × Nat) : Prop :=
  a.1 < b.1 ∨ (a.1 = b.1 ∧ (a.2.1.val < b.2.1.val ∨
    (a.2.1.val = b.2.1.val ∧ a.2.2 ≤ b.2.2)))

instance : DecidableRel KeyLE := fun a b =>
  decidable_of_iff
    (a.1 < b.1 ∨ (a.1 = b.1 ∧ (Rq.blt a.2.1 b.2.1 = true ∨
      (Rq.beq a.2.1 b.2.1 = true ∧ a.2.2 ≤ b.2.2))))
    (by rw [Rq.blt_iff, Rq.beq_iff]; exact Iff.rfl)

instance : IsTotal (Nat × Rq × Nat) KeyLE :=
  ⟨by
    intro a b
    rcases lt_trichotomy a.1 b.1 with h | h | h
    · exact Or.inl (Or.inl h)
    · rcases lt_trichotomy a.2.1.val b.2.1.val with h2 | h2 | h2
      · exact Or.inl (Or.inr ⟨h, Or.inl h2⟩)
      · rcases le_total a.2.2 b.2.2 with h3 | h3
        · exact Or.inl (Or.inr ⟨h, Or.inr ⟨h2, h3⟩⟩)
        · exact Or.inr (Or.inr ⟨h.symm, Or.inr ⟨h2.symm, h3⟩⟩)
      · exact Or.inr (Or.inr ⟨h.symm, Or.inl h2⟩)
    · exact Or.inr (Or.inl h)⟩

instance : IsTrans (Nat × Rq × Nat) KeyLE :=
  ⟨by
    intro a b c hab hbc
    rcases hab with h1 | ⟨e1, h1⟩
    · rcases hbc with h2 | ⟨e2, h2⟩
      · exact Or.inl (h1.trans h2)
      · exact Or.inl (e2 ▸ h1)
    · rcases hbc with h2 | ⟨e2, h2⟩
      · exact Or.inl (e1 ▸ h2)
      · refine Or.inr ⟨e1.trans e2, ?_⟩
        rcases h1 with h1 | ⟨v1, h1⟩
        · rcases h2 with h2 | ⟨v2, h2⟩
          · exact Or.inl (h1.trans h2)
          · exact Or.inl (v2 ▸ h1)
        · rcases h2 with h2 | ⟨v2, h2⟩
          · exact Or.inl (v1 ▸ h2)
          · exact Or.inr ⟨v1.trans v2, h1.trans h2⟩⟩

/-- The sort keys of a similarity row, in index order. -/
def searchKeys (sims : List (Rq × Rq)) : List (Nat × Rq × Nat) :=
  (List.range sims.length).map (fun i => simKey (sims.getD i (Rq.ofInt 0, Rq.ofInt 0)) i)

/-- NumPy `np.argsort(similarities)`: the indices `0 .. n-1` reordered so the
similarity values are ascending, ties by insertion index, `NaN`s last. -/
def argsortSims (sims : List (Rq × Rq)) : List Nat :=
  (List.insertionSort KeyLE (searchKeys sims)).map (fun t => t.2.2)

/-- Python slicing `l[-k:]` (NumPy shares these semantics): the last `k`
elements, except that `k = 0` yields the whole list (`l[-0:] == l[0:]`). -/
def pyLastK (l : List α) (k : Nat) : List α :=
  if k = 0 then l else l.drop (l.length - k)

/-- Lines 213-228 of `search_standards`: the selected section indices, in
result order (`np.argsort(similarities)[-top_k:][::-1]`), after the
empty-corpus early return of line 216. -/
def searchTopIndices (embs : List Embedding) (q : Embedding) (k : Nat) : List Nat :=
  if embs.length = 0 then []
  else (pyLastK (argsortSims (embs.map (fun e => simPair e q))) k).reverse

/-- One search result record (`document_processor.py` lines 236-243). -/
structure SearchResult where
  id : PyStr
  document : PyStr
  sectionTitle : PyStr
  content : PyStr
  scoreNum : Rq
  scoreDen2 : Rq
  title : PyStr
deriving DecidableEq

/-- Line 240: content truncated to 300 code points with a `...` marker. -/
def truncContent (c : PyStr) : PyStr :=
  if c.length > 300 then c.take 300 ++ "...".data else c

/-- Line 234: join a section to its owning document,
`{}` (hence filename `"Unknown"`) when the id resolves to no document. -/
def findDocument (docs : List Document) (did : PyStr) : Option Document :=
  docs.find? (fun d => d.id = did)

/-- Model of `search_standards` (lines 201-245).  The query is represented by the
embedding the oracle returns for it (`_create_embedding(query)`, line 213). -/
def search_standards (st : Store) (qEmb : Embedding) (k : Nat) : List SearchResult :=
  (searchTopIndices st.embeddings qEmb k).map (fun idx =>
    let sec := st.sections.getD idx ⟨[], [], 0, [], [], 0⟩
    let sim := simPair (st.embeddings.getD idx []) qEmb
    { id := sec.id
      document := match findDocument st.documents sec.document_id with
                  | some d => d.filename
                  | none => "Unknown".data
      sectionTitle := sec.title
      content := truncContent sec.content
      scoreNum := sim.1
      scoreDen2 := sim.2
      title := sec.title })

/-! ### Segmentation (`_split_into_sections`, lines 142-191) -/

/-- The deterministic fallback of lines 175-176: each paragraph of the raw
`text.split("\n\n")` whose `strip()` is non-empty becomes a `(title, content)`
pair titled `"Section {i+1}"`, where `i` is the paragraph's index in the raw
split (`enumerate` runs before the filter, so blank paragraphs consume
numbers). -/
def fallbackSections (paragraphs : List PyStr) : List (PyStr × PyStr) :=
  (paragraphs.enum.filter (fun p => pyStrip p.2 ≠ [])).map
    (fun p => ("Section ".data ++ natStr (p.1 + 1), p.2))

/-- Model of `_split_into_sections` (lines 142-191).  `seg` is the parsed response of
the segmentation oracle: `some l` when `json.loads(...)['sections']` produced
the list `l` of `(title, content)` pairs, `none` when parsing raised
(`JSONDecodeError`/`KeyError`), which triggers the fallback.  `secIds` supplies
the fresh `uuid4` of each output position. -/
def splitIntoSections (text : PyStr) (docId : PyStr) (secIds : Nat → PyStr)
    (seg : Option (List (PyStr × PyStr))) : List Sec :=
  let sectionsText := splitNN text
  let parsed := match seg with
    | some l => l
    | none => fallbackSections sectionsText
  parsed.enum.map (fun p =>
    { id := secIds p.1
      document_id := docId
      index := p.1
      title := p.2.1
      content := pyStrip p.2.2
      word_count := pyWordCount p.2.2 })

/-! ### Durable storage (`_load_data` / `_save_data`, lines 35-69) -/

/-- The state of one backing file: absent, unreadable (its load raises), or
holding a parsed value. -/
inductive FileState (α : Type) where
  | missing
  | corrupt
  | good (v : α)
deriving DecidableEq

/-- The three backing files (`data/documents.json`, `data/sections.json`,
`data/embeddings.npy`). -/
structure Disk where
  docsFile : FileState (List Document)
  secsFile : FileState (List Sec)
  embsFile : FileState (List Embedding)
deriving DecidableEq

/-- The collection a readable file yields (`[]` when missing). -/
def fileElse : FileState (List α) → List α
  | .good v => v
  | _ => []

/-- Model of `_load_data` (lines 35-53): the three files are read in order inside one
`try`; the first raise jumps to the handler, which only resets
`self.embeddings = []` — collections already assigned keep their values and
collections not yet reached keep their initial `[]`. -/
def loadData (d : Disk) : Store :=
  match d.docsFile, d.secsFile, d.embsFile with
  | .corrupt, _, _ => ⟨[], [], []⟩
  | df, .corrupt, _ => ⟨fileElse df, [], []⟩
  | df, sf, .corrupt => ⟨fileElse df, fileElse sf, []⟩
  | df, sf, ef => ⟨fileElse df, fileElse sf, fileElse ef⟩

/-- Model of `_save_data` (lines 55-69): documents and sections are always written;
the embeddings file is written only when `len(self.embeddings) > 0`, so an
older `embeddings.npy` survives a save with an empty embedding list. -/
def saveData (st : Store) (d : Disk) : Disk :=
  { docsFile := .good st.documents
    secsFile := .good st.sections
    embsFile := if st.embeddings.length > 0 then .good st.embeddings else d.embsFile }

/-! ### Ingestion (`process_document`, lines 71-117) -/

/-- Everything one `process_document` call consumes: the extracted text and
file metadata (extraction is outside the core), the fresh `uuid4`s, the
parsed segmentation-oracle response and the ingestion timestamp. -/
structure DocInput where
  docId : PyStr
  filename : PyStr
  ftype : PyStr
  size : Nat
  date : PyStr
  text : PyStr
  secIds : Nat → PyStr
  seg : Option (List (PyStr × PyStr))

/-- The document record appended at lines 94-102. -/
def mkDocument (inp : DocInput) : Document :=
  ⟨inp.docId, inp.filename, inp.ftype, inp.size, inp.date⟩

/-- The per-section loop of lines 108-114: for each section the embedding
oracle is called on the content truncated to 8000 code points
(`_create_embedding`, line 197); on success the section and its embedding are
appended, on failure (`none`) the raise leaves the store as it stands and the
remaining sections unprocessed. -/
def appendLoop (embedF : PyStr → Option Embedding) :
    List Sec → Store → Store × Bool
  | [], st => (st, true)
  | s :: rest, st =>
    match embedF (s.content.take 8000) with
    | none => (st, false)
    | some v =>
      appendLoop embedF rest
        { st with sections := st.sections ++ [s], embeddings := st.embeddings ++ [v] }

/-- Model of `process_document` (lines 71-117): append the document record, segment,
embed-and-append each section, and persist via `_save_data` once the whole
loop succeeded; an embedding-oracle failure propagates before `_save_data`
runs.  Returns the new in-memory state, the new disk state, and whether the
call completed. -/
def process_document (st : Store) (d : Disk) (inp : DocInput)
    (embedF : PyStr → Option Embedding) : Store × Disk × Bool :=
  let st1 := { st with documents := st.documents ++ [mkDocument inp] }
  let secs := splitIntoSections inp.text inp.docId inp.secIds inp.seg
  match appendLoop embedF secs st1 with
  | (st2, true) => (st2, saveData st2 d, true)
  | (st2, false) => (st2, d, false)

/-- A sequence of `process_document` calls, threading store and disk. -/
def runAll (inputs : List (DocInput × (PyStr → Option Embedding)))
    (sd : Store × Disk) : Store × Disk :=
  inputs.foldl (fun acc p =>
    ((process_document acc.1 acc.2 p.1 p.2).1,
     (process_document acc.1 acc.2 p.1 p.2).2.1)) sd

/-! ### Network builder (`get_standards_network`, lines 255-304) -/

/-- A network node (line 267). -/
structure NetNode where
  id : PyStr
  label : PyStr
  size : Nat
deriving DecidableEq

/-- A network edge (lines 298-302); the float weight is the centroid cosine
similarity `weightNum / √weightDen2`. -/
structure NetEdge where
  source : PyStr
  target : PyStr
  weightNum : Rq
  weightDen2 : Rq
deriving DecidableEq

/-- Lines 276-280: the centroid of a document — the mean of the embeddings of
the sections whose `document_id` matches — or `none` when the document has no
sections. -/
def docCentroid (st : Store) (docId : PyStr) : Option Embedding :=
  let idxs := (st.sections.enum.filter (fun p => p.2.document_id = docId)).map (fun p => p.1)
  if idxs = [] then none
  else some (vecMean (idxs.map (fun i => st.embeddings.getD i [])))

/-- The float test `similarity > 0.8` of line 297 on the exact similarity
`d / √m`: positive dot and `25·d² > 16·m` (for `m`'s value `0` both sides are
`NaN > 0.8`, i.e. false, matching `d`'s value `0`). -/
def simGT08 (d m : Rq) : Bool :=
  Rq.blt (Rq.ofInt 0) d && Rq.blt (Rq.mul (Rq.ofInt 16) m) (Rq.mul (Rq.ofInt 25) (Rq.mul d d))

/-- The ordered pairs `(l[i], l[j])`, `i < j`, in the loop order of
lines 283-290. -/
def pairsFrom : List α → List (α × α)
  | [] => []
  | x :: xs => (xs.map (fun y => (x, y))) ++ pairsFrom xs

/-- The inner loop body of lines 283-302: the edge the ordered id pair `p`
contributes, if any — both documents must have a centroid and their centroid
similarity must exceed the 0.8 threshold. -/
def edgeFor (st : Store) (p : PyStr × PyStr) : Option NetEdge :=
  match docCentroid st p.1, docCentroid st p.2 with
  | some c1, some c2 =>
    if simGT08 (dotQ c1 c2) (Rq.mul (normSq c1) (normSq c2)) then
      some ⟨p.1, p.2, dotQ c1 c2, Rq.mul (normSq c1) (normSq c2)⟩
    else none
  | _, _ => none

/-- Model of `get_standards_network` (lines 255-304). -/
def get_standards_network (st : Store) : List NetNode × List NetEdge :=
  if st.sections.length < 2 then ([], [])
  else
    (st.documents.map (fun doc => ⟨doc.id, basename doc.filename, 10⟩),
     (pairsFrom (st.documents.map (fun doc => doc.id))).filterMap (edgeFor st))

/-! ### Store invariants -/

/-- The positional-alignment invariant `len(sections) == len(embeddings)`. -/
def Aligned (st : Store) : Prop := st.sections.length = st.embeddings.length

/-- Referential integrity: every section's `document_id` is the id of some
stored document. -/
def Resolves (st : Store) : Prop :=
  ∀ s ∈ st.sections, ∃ doc ∈ st.documents, doc.id = s.document_id

theorem splitIntoSections_document_id {text docId secIds seg} :
    ∀ s ∈ splitIntoSections text docId secIds seg, s.document_id = docId := by
  intro s hs
  simp only [splitIntoSections, List.mem_map] at hs
  obtain ⟨p, _, rfl⟩ := hs
  rfl

theorem appendLoop_documents (embedF : PyStr → Option Embedding) :
    ∀ (secs : List Sec) (st : Store),
      (appendLoop embedF secs st).1.documents = st.documents := by
  intro secs
  induction secs with
  | nil => intro st; rfl
  | cons s rest ih =>
    intro st
    simp only [appendLoop]
    cases embedF (s.content.take 8000) with
    | none => rfl
    | some v => exact ih _

theorem appendLoop_aligned (embedF : PyStr → Option Embedding) :
    ∀ (secs : List Sec) (st : Store), Aligned st →
      Aligned (appendLoop embedF secs st).1 := by
  intro secs
  induction secs with
  | nil => intro st h; exact h
  | cons s rest ih =>
    intro st h
    simp only [appendLoop]
    cases embedF (s.content.take 8000) with
    | none => exact h
    | some v =>
      exact ih _ (by simp only [Aligned, List.length_append, List.length_singleton] at h ⊢; omega)

theorem appendLoop_resolves (embedF : PyStr → Option Embedding) :
    ∀ (secs : List Sec) (st : Store), Resolves st →
      (∀ s ∈ secs, ∃ doc ∈ st.documents, doc.id = s.document_id) →
      Resolves (appendLoop embedF secs st).1 := by
  intro secs
  induction secs with
  | nil => intro st h _; exact h
  | cons s rest ih =>
    intro st h hsecs
    simp only [appendLoop]
    cases embedF (s.content.take 8000) with
    | none => exact h
    | some v =>
      refine ih _ ?_ ?_
      · intro t ht
        simp only [List.mem_append, List.mem_singleton] at ht
        rcases ht with ht | rfl
        · exact h t ht
        · exact hsecs t (by simp)
      · intro t ht
        exact hsecs t (by simp [ht])

theorem process_document_inv (st : Store) (d : Disk) (inp : DocInput)
    (embedF : PyStr → Option Embedding) (h1 : Aligned st) (h2 : Resolves st) :
    Aligned (process_document st d inp embedF).1 ∧
      Resolves (process_document st d inp embedF).1 := by
  have hdocres :
      ∀ s ∈ splitIntoSections inp.text inp.docId inp.secIds inp.seg,
        ∃ doc ∈ st.documents ++ [mkDocument inp], doc.id = s.document_id := by
    intro s hs
    exact ⟨mkDocument inp, by simp, (splitIntoSections_document_id s hs).symm⟩
  have ha := appendLoop_aligned embedF (splitIntoSections inp.text inp.docId inp.secIds inp.seg)
    { st with documents := st.documents ++ [mkDocument inp] } h1
  have hr := appendLoop_resolves embedF (splitIntoSections inp.text inp.docId inp.secIds inp.seg)
    { st with documents := st.documents ++ [mkDocument inp] }
    (fun s hs => by
      obtain ⟨doc, hdoc, hid⟩ := h2 s hs
      exact ⟨doc, by simp [hdoc], hid⟩)
    hdocres
  simp only [process_document]
  rcases hl : appendLoop embedF (splitIntoSections inp.text inp.docId inp.secIds inp.seg)
      { st with documents := st.documents ++ [mkDocument inp] } with ⟨st2, ok⟩
  rw [hl] at ha hr
  cases ok <;> exact ⟨ha, hr⟩

theorem runAll_inv (inputs : List (DocInput × (PyStr → Option Embedding))) :
    ∀ sd : Store × Disk, Aligned sd.1 → Resolves sd.1 →
      Aligned (runAll inputs sd).1 ∧ Resolves (runAll inputs sd).1 := by
  induction inputs with
  | nil => intro sd h1 h2; exact ⟨h1, h2⟩
  | cons p rest ih =>
    intro sd h1 h2
    have step := process_document_inv sd.1 sd.2 p.1 p.2 h1 h2
    simpa only [runAll, List.foldl_cons] using ih _ step.1 step.2

/-- Claim C1: after any sequence of successful `process_document` calls
starting from empty collections, `len(sections) == len(embeddings)` holds and
every stored section's `document_id` is the id of some stored document.
(The invariant in fact survives unsuccessful calls as well.) -/
theorem claim_C1_invariant (inputs : List (DocInput × (PyStr → Option Embedding)))
    (d0 : Disk) (hsucc : ∀ p ∈ inputs, ∀ s, (p.2 s).isSome) :
    Aligned (runAll inputs (emptyStore, d0)).1 ∧
      Resolves (runAll inputs (emptyStore, d0)).1 :=
  runAll_inv inputs (emptyStore, d0) rfl (fun s hs => by simp [emptyStore] at hs)

/-- Shared concrete ingestion input: a two-paragraph text document. -/
def inpA : DocInput :=
  ⟨"d1".data, "f.txt".data, "txt".data, 6, "t0".data, "aa\n\nbb".data,
   (fun i => "s".data ++ natStr i), none⟩

/-- Shared concrete embedding oracle that always succeeds. -/
def embTotal : PyStr → Option Embedding := fun _ => some [⟨1, 1⟩]

/-- Shared empty disk. -/
def diskM : Disk := ⟨.missing, .missing, .missing⟩

/-- Witness for C1 at a concrete one-document run. -/
theorem claim_C1_invariant_witness :
    Aligned (runAll [(inpA, embTotal)] (emptyStore, diskM)).1 ∧
      Resolves (runAll [(inpA, embTotal)] (emptyStore, diskM)).1 :=
  claim_C1_invariant [(inpA, embTotal)] diskM
    (by intro p hp s; simp only [List.mem_singleton] at hp; subst hp; rfl)

/-! ### Result-count of `search_standards` (claim C2) -/

theorem argsortSims_length (sims : List (Rq × Rq)) :
    (argsortSims sims).length = sims.length := by
  simp [argsortSims, searchKeys, List.length_insertionSort]

theorem pyLastK_length (l : List α) (k : Nat) :
    (pyLastK l k).length = if k = 0 then l.length else min k l.length := by
  simp only [pyLastK]
  rcases Nat.eq_zero_or_pos k with rfl | hk
  · simp
  · rw [if_neg (by omega), if_neg (by omega), List.length_drop]
    omega

theorem searchTopIndices_length (embs : List Embedding) (q : Embedding) (k : Nat) :
    (searchTopIndices embs q k).length =
      if k = 0 then embs.length else min k embs.length := by
  simp only [searchTopIndices]
  rcases Nat.eq_zero_or_pos embs.length with he | he
  · rw [if_pos he, he]
    rcases Nat.eq_zero_or_pos k with rfl | hk
    · simp
    · simp only [List.length_nil, if_neg (by omega : ¬ k = 0)]
      omega
  · rw [if_neg (by omega), List.length_reverse, pyLastK_length, argsortSims_length,
      List.length_map]

/-- Claim C2, corrected: the result list of `search_standards(query, top_k)`
has length `min(top_k, section_count)` for every `top_k ≥ 1`; for `top_k = 0`
the NumPy slice `[-0:]` selects the whole array, so every stored section is
returned instead of none. -/
theorem claim_C2_search_length (st : Store) (q : Embedding) (k : Nat)
    (hA : Aligned st) :
    (search_standards st q k).length =
      if k = 0 then st.sections.length else min k st.sections.length := by
  rw [search_standards, List.length_map, searchTopIndices_length, hA]

/-- Shared concrete document/section/store with one stored section. -/
def docB : Document := ⟨"d1".data, "f.txt".data, "txt".data, 1, "t".data⟩

/-- Shared concrete section owned by `docB`. -/
def secB : Sec := ⟨"s1".data, "d1".data, 0, "T".data, "c".data, 1⟩

/-- A store holding exactly one section/embedding pair. -/
def storeB : Store := ⟨[docB], [secB], [[⟨1, 1⟩]]⟩

/-- Counterexample to C2 as stated: with one stored section,
`search_standards(query, top_k = 0)` returns 1 result, not
`min(0, 1) = 0`. -/
theorem claim_C2_cex :
    ¬ ((search_standards storeB [⟨1, 1⟩] 0).length = min 0 storeB.sections.length) := by
  decide

/-- Witness for the corrected C2 at `top_k = 2` over one stored section. -/
theorem claim_C2_search_length_witness :
    (search_standards storeB [⟨1, 1⟩] 2).length =
      if 2 = 0 then storeB.sections.length else min 2 storeB.sections.length :=
  claim_C2_search_length storeB [⟨1, 1⟩] 2 rfl

/-! ### Value bridge between signed squares and cosine similarities -/

/-- A well-formed vector: every coordinate fraction has a nonzero
denominator (true of everything the embedded code constructs). -/
abbrev VecWF (v : Embedding) : Prop := ∀ x ∈ v, x.den ≠ 0

theorem mulSelfAbs_strictMono : StrictMono (fun x : ℝ => x * |x|) := by
  intro a b hab
  simp only
  rcases le_or_lt b 0 with hb | hb
  · rw [abs_of_nonpos hb, abs_of_nonpos (hab.le.trans hb)]
    nlinarith
  · rw [abs_of_pos hb]
    rcases le_or_lt a 0 with ha | ha
    · rw [abs_of_nonpos ha]
      nlinarith
    · rw [abs_of_pos ha]
      nlinarith

theorem mulSelfAbs_sqrt {d m : ℚ} (hm : 0 < m) :
    ((d : ℝ) / Real.sqrt (m : ℝ)) * |(d : ℝ) / Real.sqrt (m : ℝ)| =
      ((d * |d| / m : ℚ) : ℝ) := by
  have hm' : (0 : ℝ) < (m : ℝ) := by exact_mod_cast hm
  have hs : (0 : ℝ) ≤ Real.sqrt (m : ℝ) := Real.sqrt_nonneg _
  rw [abs_div, abs_of_nonneg hs, div_mul_div_comm, Real.mul_self_sqrt hm'.le]
  push_cast
  ring

theorem score_lt_iff {d1 m1 d2 m2 : ℚ} (h1 : 0 < m1) (h2 : 0 < m2) :
    ((d1 : ℝ) / Real.sqrt (m1 : ℝ) < (d2 : ℝ) / Real.sqrt (m2 : ℝ)) ↔
      (d1 * |d1| / m1 < d2 * |d2| / m2) := by
  rw [← Rat.cast_lt (K := ℝ), ← mulSelfAbs_sqrt h1, ← mulSelfAbs_sqrt h2]
  exact (mulSelfAbs_strictMono.lt_iff_lt).symm

theorem score_eq_iff {d1 m1 d2 m2 : ℚ} (h1 : 0 < m1) (h2 : 0 < m2) :
    ((d1 : ℝ) / Real.sqrt (m1 : ℝ) = (d2 : ℝ) / Real.sqrt (m2 : ℝ)) ↔
      (d1 * |d1| / m1 = d2 * |d2| / m2) := by
  rw [← Rat.cast_inj (α := ℝ), ← mulSelfAbs_sqrt h1, ← mulSelfAbs_sqrt h2]
  exact (mulSelfAbs_strictMono.injective.eq_iff).symm

theorem ssqQ_val (s : Rq × Rq) :
    (ssqQ s).val = s.1.val * |s.1.val| / s.2.val := by
  rw [ssqQ, Rq.val_div, Rq.val_mul, Rq.val_habs]

theorem dotQ_den_ne_zero : ∀ (a b : Embedding), VecWF a → VecWF b →
    (dotQ a b).den ≠ 0 := by
  intro a
  induction a with
  | nil => intro b _ _; simp [dotQ, Rq.ofInt]
  | cons x a' ih =>
    intro b ha hb
    cases b with
    | nil => simp [dotQ, Rq.ofInt]
    | cons y b' =>
      have hx : x.den ≠ 0 := ha x (by simp)
      have hy : y.den ≠ 0 := hb y (by simp)
      have ht : (dotQ a' b').den ≠ 0 :=
        ih b' (fun z hz => ha z (by simp [hz])) (fun z hz => hb z (by simp [hz]))
      show ((Rq.mul x y).add (dotQ a' b')).den ≠ 0
      simp only [Rq.add, Rq.mul]
      exact mul_ne_zero (mul_ne_zero hx hy) ht

theorem dotQ_cons (x y : Rq) (a b : Embedding) :
    dotQ (x :: a) (y :: b) = (Rq.mul x y).add (dotQ a b) := rfl

theorem normSq_val_nonneg : ∀ (v : Embedding), VecWF v → 0 ≤ (normSq v).val := by
  intro v
  induction v with
  | nil => intro _; simp [normSq, dotQ, Rq.ofInt, Rq.val]
  | cons x t ih =>
    intro hv
    have hx : x.den ≠ 0 := hv x (by simp)
    have hwt : VecWF t := fun z hz => hv z (by simp [hz])
    have hd : (dotQ t t).den ≠ 0 := dotQ_den_ne_zero t t hwt hwt
    have hmul : (Rq.mul x x).den ≠ 0 := by
      simp only [Rq.mul]; exact mul_ne_zero hx hx
    show 0 ≤ ((Rq.mul x x).add (dotQ t t)).val
    rw [Rq.val_add hmul hd, Rq.val_mul]
    have := ih hwt
    rw [normSq] at this
    nlinarith [mul_self_nonneg x.val]

/-! ### Order of the selected indices (claim C3) -/

theorem searchKeys_proj (sims : List (Rq × Rq)) :
    (searchKeys sims).map (fun t => t.2.2) = List.range sims.length := by
  rw [searchKeys, List.map_map]
  have hc : ((fun t : Nat × Rq × Nat => t.2.2) ∘
      fun i => simKey (sims.getD i (Rq.ofInt 0, Rq.ofInt 0)) i) = fun i => i := rfl
  rw [hc, List.map_id']

theorem mem_searchKeys {sims : List (Rq × Rq)} {t : Nat × Rq × Nat}
    (h : t ∈ searchKeys sims) :
    t = simKey (sims.getD t.2.2 (Rq.ofInt 0, Rq.ofInt 0)) t.2.2 ∧ t.2.2 < sims.length := by
  simp only [searchKeys, List.mem_map, List.mem_range] at h
  obtain ⟨i, hi, rfl⟩ := h
  exact ⟨rfl, hi⟩

theorem argsortSims_nodup (sims : List (Rq × Rq)) : (argsortSims sims).Nodup := by
  have hp : (argsortSims sims).Perm ((searchKeys sims).map (fun t => t.2.2)) :=
    (List.perm_insertionSort KeyLE (searchKeys sims)).map _
  rw [searchKeys_proj] at hp
  exact hp.symm.nodup (List.nodup_range _)

theorem mem_argsortSims {sims : List (Rq × Rq)} {i : Nat}
    (h : i ∈ argsortSims sims) : i < sims.length := by
  simp only [argsortSims, List.mem_map] at h
  obtain ⟨t, ht, rfl⟩ := h
  exact (mem_searchKeys (((List.perm_insertionSort KeyLE _).mem_iff).mp ht)).2

theorem argsortSims_pairwise (sims : List (Rq × Rq)) :
    List.Pairwise (fun i j =>
      KeyLE (simKey (sims.getD i (Rq.ofInt 0, Rq.ofInt 0)) i)
        (simKey (sims.getD j (Rq.ofInt 0, Rq.ofInt 0)) j) ∧ i ≠ j)
      (argsortSims sims) := by
  have hs : List.Pairwise KeyLE (List.insertionSort KeyLE (searchKeys sims)) :=
    List.sorted_insertionSort KeyLE (searchKeys sims)
  have hn : List.Pairwise (fun a b : Nat × Rq × Nat => a.2.2 ≠ b.2.2)
      (List.insertionSort KeyLE (searchKeys sims)) :=
    List.pairwise_map.mp (argsortSims_nodup sims)
  refine List.pairwise_map.mpr (((hs.and hn).imp_of_mem ?_))
  intro a b ha hb hr
  obtain ⟨ea, _⟩ := mem_searchKeys (((List.perm_insertionSort KeyLE _).mem_iff).mp ha)
  obtain ⟨eb, _⟩ := mem_searchKeys (((List.perm_insertionSort KeyLE _).mem_iff).mp hb)
  exact ⟨by rw [← ea, ← eb]; exact hr.1, hr.2⟩

theorem pyLastK_sublist (l : List α) (k : Nat) : (pyLastK l k).Sublist l := by
  rw [pyLastK]
  rcases Nat.eq_zero_or_pos k with rfl | hk
  · simp
  · rw [if_neg (by omega)]
    exact List.drop_sublist _ _

theorem getD_map_simPair {embs : List Embedding} {q : Embedding} {i : Nat}
    (h : i < embs.length) :
    (embs.map (fun e => simPair e q)).getD i (Rq.ofInt 0, Rq.ofInt 0) =
      simPair (embs.getD i []) q := by
  rw [List.getD_eq_getElem?_getD, List.getD_eq_getElem?_getD, List.getElem?_map,
    List.getElem?_eq_getElem h]
  simp

theorem getD_mem (l : List α) (i : Nat) (d : α) (h : i < l.length) :
    l.getD i d ∈ l := by
  rw [List.getD_eq_getElem?_getD, List.getElem?_eq_getElem h]
  exact List.getElem_mem _

/-- Claim C3, corrected: the result list of `search_standards` is ordered by
non-increasing similarity score, but on ties the section with the **later**
insertion index is preferred: ascending stable `argsort` leaves equal scores
in insertion order and the final `[::-1]` reversal flips them, so the later
index comes first (and at `top_k = 1` the later index is the one selected).
Stated over the selected index list, assuming every stored vector and the
query have nonzero norm (otherwise scores are `NaN`). -/
theorem claim_C3_search_order (st : Store) (q : Embedding) (k : Nat)
    (hq : VecWF q) (he : ∀ e ∈ st.embeddings, VecWF e)
    (hnz : ∀ e ∈ st.embeddings, (normSq e).val ≠ 0)
    (hqnz : (normSq q).val ≠ 0) :
    List.Pairwise (fun i j =>
      (((simPair (st.embeddings.getD j []) q).1.val : ℝ) /
          Real.sqrt ((simPair (st.embeddings.getD j []) q).2.val : ℝ) <
        ((simPair (st.embeddings.getD i []) q).1.val : ℝ) /
          Real.sqrt ((simPair (st.embeddings.getD i []) q).2.val : ℝ)) ∨
      ((((simPair (st.embeddings.getD j []) q).1.val : ℝ) /
          Real.sqrt ((simPair (st.embeddings.getD j []) q).2.val : ℝ) =
        ((simPair (st.embeddings.getD i []) q).1.val : ℝ) /
          Real.sqrt ((simPair (st.embeddings.getD i []) q).2.val : ℝ)) ∧ j < i))
      (searchTopIndices st.embeddings q k) := by
  rw [searchTopIndices]
  by_cases hn : st.embeddings.length = 0
  · rw [if_pos hn]
    exact List.Pairwise.nil
  · rw [if_neg hn, List.pairwise_reverse]
    have hP := (argsortSims_pairwise (st.embeddings.map (fun e => simPair e q))).sublist
      (pyLastK_sublist _ k)
    refine hP.imp_of_mem ?_
    intro a b ha hb hr
    have ha' : a < st.embeddings.length := by
      have := mem_argsortSims ((pyLastK_sublist _ k).subset ha)
      simpa using this
    have hb' : b < st.embeddings.length := by
      have := mem_argsortSims ((pyLastK_sublist _ k).subset hb)
      simpa using this
    rw [getD_map_simPair ha', getD_map_simPair hb'] at hr
    have hma : 0 < (simPair (st.embeddings.getD a []) q).2.val := by
      rw [simPair, Rq.val_mul]
      have h1 := normSq_val_nonneg _ (he _ (getD_mem st.embeddings a [] ha'))
      have h2 := normSq_val_nonneg q hq
      have h3 := hnz _ (getD_mem st.embeddings a [] ha')
      have := mul_ne_zero h3 hqnz
      positivity
    have hmb : 0 < (simPair (st.embeddings.getD b []) q).2.val := by
      rw [simPair, Rq.val_mul]
      have h1 := normSq_val_nonneg _ (he _ (getD_mem st.embeddings b [] hb'))
      have h2 := normSq_val_nonneg q hq
      have h3 := hnz _ (getD_mem st.embeddings b [] hb')
      have := mul_ne_zero h3 hqnz
      positivity
    have hflaga :
        (simKey (simPair (st.embeddings.getD a []) q) a).1 = 0 := by
      rw [simKey, if_neg]
      intro hbe
      rw [Rq.beq_iff, Rq.val_ofInt] at hbe
      rw [hbe] at hma
      exact lt_irrefl _ (by exact_mod_cast hma)
    have hflagb :
        (simKey (simPair (st.embeddings.getD b []) q) b).1 = 0 := by
      rw [simKey, if_neg]
      intro hbe
      rw [Rq.beq_iff, Rq.val_ofInt] at hbe
      rw [hbe] at hmb
      exact lt_irrefl _ (by exact_mod_cast hmb)
    rcases hr.1 with hlt | ⟨_, hmid⟩
    · rw [hflaga, hflagb] at hlt
      exact absurd hlt (lt_irrefl 0)
    · rcases hmid with hlt | ⟨heq, hle⟩
      · left
        rw [score_lt_iff hma hmb, ← ssqQ_val, ← ssqQ_val]
        exact hlt
      · right
        constructor
        · rw [score_eq_iff hma hmb, ← ssqQ_val, ← ssqQ_val]
          exact heq
        · rcases Nat.lt_or_ge a b with h | h
          · exact h
          · have : (simKey (simPair (st.embeddings.getD a []) q) a).2.2 ≤
                (simKey (simPair (st.embeddings.getD b []) q) b).2.2 := hle
            simp only [simKey] at this
            omega

/-- A second section owned by `docB`. -/
def secC : Sec := ⟨"s2".data, "d1".data, 1, "T".data, "c".data, 1⟩

/-- A store with two sections carrying identical embeddings (a tie). -/
def storeC : Store := ⟨[docB], [secB, secC], [[⟨1, 1⟩], [⟨1, 1⟩]]⟩

/-- Counterexample to C3 as stated: the two stored sections have equal
similarity to the query, yet `top_k = 1` selects insertion index 1, the
**later** one, not the earlier index 0 the claim promises. -/
theorem claim_C3_cex :
    searchTopIndices storeC.embeddings [⟨1, 1⟩] 1 = [1] ∧
      ¬ (searchTopIndices storeC.embeddings [⟨1, 1⟩] 1 = [0]) := by
  decide

theorem normSq_oneOne : normSq [(⟨1, 1⟩ : Rq)] = ⟨1, 1⟩ := by decide

theorem val_oneOne_ne_zero : (⟨1, 1⟩ : Rq).val ≠ 0 := by
  norm_num [Rq.val]

/-- Witness for the corrected C3 on the concrete tied store at `top_k = 2`. -/
theorem claim_C3_search_order_witness :
    List.Pairwise (fun i j =>
      (((simPair (storeC.embeddings.getD j []) [⟨1, 1⟩]).1.val : ℝ) /
          Real.sqrt ((simPair (storeC.embeddings.getD j []) [⟨1, 1⟩]).2.val : ℝ) <
        ((simPair (storeC.embeddings.getD i []) [⟨1, 1⟩]).1.val : ℝ) /
          Real.sqrt ((simPair (storeC.embeddings.getD i []) [⟨1, 1⟩]).2.val : ℝ)) ∨
      ((((simPair (storeC.embeddings.getD j []) [⟨1, 1⟩]).1.val : ℝ) /
          Real.sqrt ((simPair (storeC.embeddings.getD j []) [⟨1, 1⟩]).2.val : ℝ) =
        ((simPair (storeC.embeddings.getD i []) [⟨1, 1⟩]).1.val : ℝ) /
          Real.sqrt ((simPair (storeC.embeddings.getD i []) [⟨1, 1⟩]).2.val : ℝ)) ∧ j < i))
      (searchTopIndices storeC.embeddings [⟨1, 1⟩] 2) :=
  claim_C3_search_order storeC [⟨1, 1⟩] 2 (by decide) (by decide)
    (by
      intro e he
      have : e = [(⟨1, 1⟩ : Rq)] := by
        simp only [storeC, List.mem_cons, List.not_mem_nil, or_false] at he
        rcases he with rfl | rfl <;> rfl
      rw [this, normSq_oneOne]
      exact val_oneOne_ne_zero)
    (by rw [normSq_oneOne]; exact val_oneOne_ne_zero)

/-! ### The cosine-similarity formula and zero norms (claim C4) -/

/-- Claim C4, corrected: the similarity `search_standards` computes equals
`dot(a,b) / (norm(a)·norm(b))` whenever both norms are nonzero; but when
either vector has zero norm the float computation is `0.0 / 0.0 = NaN`
(the pair's `den2` value is `0`), **not** the number `0` the claim
promises. -/
theorem claim_C4_similarity (e q : Embedding) (hwe : VecWF e) (hwq : VecWF q) :
    ((normSq e).val ≠ 0 → (normSq q).val ≠ 0 →
      (simPair e q).2.val ≠ 0 ∧
        ((simPair e q).1.val : ℝ) / Real.sqrt ((simPair e q).2.val : ℝ) =
          ((dotQ e q).val : ℝ) /
            (Real.sqrt ((normSq e).val : ℝ) * Real.sqrt ((normSq q).val : ℝ))) ∧
    ((normSq e).val = 0 ∨ (normSq q).val = 0 → (simPair e q).2.val = 0) := by
  constructor
  · intro h1 h2
    have hval : (simPair e q).2.val = (normSq e).val * (normSq q).val := by
      rw [simPair, Rq.val_mul]
    constructor
    · rw [hval]
      exact mul_ne_zero h1 h2
    · rw [simPair]
      have hcast : ((Rq.mul (normSq e) (normSq q)).val : ℝ) =
          ((normSq e).val : ℝ) * ((normSq q).val : ℝ) := by
        rw [Rq.val_mul]
        push_cast
        rfl
      rw [hcast, Real.sqrt_mul (by exact_mod_cast normSq_val_nonneg e hwe)]
  · intro h
    rw [simPair, Rq.val_mul]
    rcases h with h | h <;> rw [h] <;> ring

/-- Counterexample to C4 as stated: against the zero query vector `[0]`, the
embedding `[1]` gets similarity `0/(1·0) = NaN` (`den2` value `0`); it is not
the well-defined value `0` the claim asserts. -/
theorem claim_C4_cex :
    ¬ ((simPair [⟨1, 1⟩] [⟨0, 1⟩]).2.val ≠ 0 ∧
       (simPair [⟨1, 1⟩] [⟨0, 1⟩]).1.val = 0) := by
  intro h
  apply h.1
  have hc : (simPair [(⟨1, 1⟩ : Rq)] [⟨0, 1⟩]).2 = ⟨0, 1⟩ := by decide
  rw [hc]
  norm_num [Rq.val]

/-- Witness for the corrected C4 on two unit vectors. -/
theorem claim_C4_similarity_witness :
    (((normSq [(⟨1, 1⟩ : Rq)]).val ≠ 0 → (normSq [(⟨1, 1⟩ : Rq)]).val ≠ 0 →
      (simPair [(⟨1, 1⟩ : Rq)] [⟨1, 1⟩]).2.val ≠ 0 ∧
        ((simPair [(⟨1, 1⟩ : Rq)] [⟨1, 1⟩]).1.val : ℝ) /
            Real.sqrt ((simPair [(⟨1, 1⟩ : Rq)] [⟨1, 1⟩]).2.val : ℝ) =
          ((dotQ [(⟨1, 1⟩ : Rq)] [⟨1, 1⟩]).val : ℝ) /
            (Real.sqrt ((normSq [(⟨1, 1⟩ : Rq)]).val : ℝ) *
              Real.sqrt ((normSq [(⟨1, 1⟩ : Rq)]).val : ℝ))) ∧
    ((normSq [(⟨1, 1⟩ : Rq)]).val = 0 ∨ (normSq [(⟨1, 1⟩ : Rq)]).val = 0 →
      (simPair [(⟨1, 1⟩ : Rq)] [⟨1, 1⟩]).2.val = 0)) ∧
    (normSq [(⟨1, 1⟩ : Rq)]).val ≠ 0 :=
  ⟨claim_C4_similarity [⟨1, 1⟩] [⟨1, 1⟩] (by decide) (by decide),
   by rw [normSq_oneOne]; exact val_oneOne_ne_zero⟩

/-! ### Segmentation fallback (claim C5) -/

theorem snd_mem_of_mem_enum {l : List α} {p : Nat × α} (h : p ∈ l.enum) : p.2 ∈ l := by
  rw [List.enum_eq_zip_range] at h
  rcases p with ⟨i, a⟩
  exact (List.of_mem_zip h).2

theorem enum_map_title (l : List PyStr) :
    l.enum.map (fun p => "Section ".data ++ natStr (p.1 + 1)) =
      (List.range l.length).map (fun i => "Section ".data ++ natStr (i + 1)) := by
  have h : (fun p : Nat × PyStr => "Section ".data ++ natStr (p.1 + 1)) =
      (fun i => "Section ".data ++ natStr (i + 1)) ∘ Prod.fst := rfl
  rw [h, ← List.map_map, List.enum_map_fst]

theorem enum_map_strip (l : List PyStr) :
    l.enum.map (fun p => pyStrip p.2) = l.map pyStrip := by
  have h : (fun p : Nat × PyStr => pyStrip p.2) = pyStrip ∘ Prod.snd := rfl
  rw [h, ← List.map_map, List.enum_map_snd]

/-- Claim C5, corrected: in the fallback, each paragraph whose `strip()` is
non-empty becomes its own section, but the number in `"Section {n}"` is the
paragraph's index in the raw `text.split("\n\n")` — `enumerate` runs before
the non-empty filter — so blank paragraphs consume numbers and the titles are
consecutive only when no paragraph of the raw split is blank.  Under that
hypothesis the sections are titled `"Section 1" .. "Section n"` in paragraph
order with the stripped paragraphs as contents (so `"A\n\nB"` yields exactly
`"Section 1"`, `"Section 2"`); a document whose two non-empty paragraphs are
separated by a blank one instead yields `"Section 1"`, `"Section 3"`
(see the counterexample). -/
theorem claim_C5_fallback (text : PyStr) (docId : PyStr) (secIds : Nat → PyStr)
    (hne : ∀ p ∈ splitNN text, pyStrip p ≠ []) :
    (splitIntoSections text docId secIds none).map (fun s => s.title) =
      (List.range (splitNN text).length).map
        (fun i => "Section ".data ++ natStr (i + 1)) ∧
    (splitIntoSections text docId secIds none).map (fun s => s.content) =
      (splitNN text).map pyStrip := by
  have hfilter : (splitNN text).enum.filter (fun p => decide (pyStrip p.2 ≠ [])) =
      (splitNN text).enum := by
    rw [List.filter_eq_self]
    intro p hp
    simpa using hne p.2 (snd_mem_of_mem_enum hp)
  have hfb : fallbackSections (splitNN text) =
      (splitNN text).enum.map (fun p => ("Section ".data ++ natStr (p.1 + 1), p.2)) := by
    rw [fallbackSections, hfilter]
  have hunf : splitIntoSections text docId secIds none =
      (fallbackSections (splitNN text)).enum.map (fun p =>
        ({ id := secIds p.1, document_id := docId, index := p.1, title := p.2.1,
           content := pyStrip p.2.2, word_count := pyWordCount p.2.2 } : Sec)) := rfl
  constructor
  · rw [hunf, List.map_map]
    have h1 : ((fun s : Sec => s.title) ∘ (fun p : Nat × (PyStr × PyStr) =>
        ({ id := secIds p.1, document_id := docId, index := p.1, title := p.2.1,
           content := pyStrip p.2.2, word_count := pyWordCount p.2.2 } : Sec))) =
        (fun q : PyStr × PyStr => q.1) ∘ Prod.snd := rfl
    rw [h1, ← List.map_map, List.enum_map_snd, hfb, List.map_map]
    have h2 : ((fun q : PyStr × PyStr => q.1) ∘ (fun p : Nat × PyStr =>
        ("Section ".data ++ natStr (p.1 + 1), p.2))) =
        (fun p : Nat × PyStr => "Section ".data ++ natStr (p.1 + 1)) := rfl
    rw [h2, enum_map_title]
  · rw [hunf, List.map_map]
    have h1 : ((fun s : Sec => s.content) ∘ (fun p : Nat × (PyStr × PyStr) =>
        ({ id := secIds p.1, document_id := docId, index := p.1, title := p.2.1,
           content := pyStrip p.2.2, word_count := pyWordCount p.2.2 } : Sec))) =
        (fun q : PyStr × PyStr => pyStrip q.2) ∘ Prod.snd := rfl
    rw [h1, ← List.map_map, List.enum_map_snd, hfb, List.map_map]
    have h2 : ((fun q : PyStr × PyStr => pyStrip q.2) ∘ (fun p : Nat × PyStr =>
        ("Section ".data ++ natStr (p.1 + 1), p.2))) =
        (fun p : Nat × PyStr => pyStrip p.2) := rfl
    rw [h2, enum_map_strip]

/-- Counterexample to C5 as stated: the text `"A\n\n\n\nB"` has exactly two
non-empty paragraph blocks, but the fallback titles them `"Section 1"` and
`"Section 3"` — the blank middle paragraph consumed the number 2 — not the
consecutive `"Section 1"`, `"Section 2"` the claim promises. -/
theorem claim_C5_cex :
    (splitIntoSections "A\n\n\n\nB".data "d1".data (fun i => natStr i) none).map
        (fun s => s.title) = ["Section 1".data, "Section 3".data] ∧
    ¬ ((splitIntoSections "A\n\n\n\nB".data "d1".data (fun i => natStr i) none).map
        (fun s => s.title) = ["Section 1".data, "Section 2".data]) := by
  decide

/-- Witness for the corrected C5 on `"A\n\nB"`: two sections titled
`"Section 1"`, `"Section 2"` holding `"A"` and `"B"`. -/
theorem claim_C5_fallback_witness :
    (splitIntoSections "A\n\nB".data "d1".data (fun i => natStr i) none).map
        (fun s => s.title) =
      (List.range (splitNN "A\n\nB".data).length).map
        (fun i => "Section ".data ++ natStr (i + 1)) ∧
    (splitIntoSections "A\n\nB".data "d1".data (fun i => natStr i) none).map
        (fun s => s.content) =
      (splitNN "A\n\nB".data).map pyStrip :=
  claim_C5_fallback "A\n\nB".data "d1".data (fun i => natStr i) (by decide)

/-! ### Load recovery (claim C6) -/

/-- Claim C6, corrected: `_load_data` never raises to the caller, but the
exception handler only resets `self.embeddings = []`.  A file that fails to
parse leaves every collection read **before** it holding its loaded value, so
a corrupt sections or embeddings file produces a mixed state (loaded
documents/sections alongside empty later collections), not the all-empty
state the claim promises; only a corrupt documents file yields all-empty. -/
theorem claim_C6_load_recovery (d : Disk) :
    (d.docsFile = .corrupt → loadData d = ⟨[], [], []⟩) ∧
    (d.secsFile = .corrupt →
      (loadData d).sections = [] ∧ (loadData d).embeddings = []) ∧
    ((d.docsFile = .corrupt ∨ d.secsFile = .corrupt ∨ d.embsFile = .corrupt) →
      (loadData d).embeddings = []) := by
  rcases d with ⟨df, sf, ef⟩
  refine ⟨?_, ?_, ?_⟩
  · intro h
    cases h
    cases sf <;> cases ef <;> rfl
  · intro h
    cases h
    cases df <;> cases ef <;> exact ⟨rfl, rfl⟩
  · intro h
    cases df <;> cases sf <;> cases ef <;> first
      | rfl
      | simp at h

/-- Counterexample to C6 as stated: a readable documents file followed by a
corrupt sections file leaves the loaded documents in memory — a mixed state,
not three empty collections. -/
theorem claim_C6_cex :
    (loadData ⟨.good [docB], .corrupt, .missing⟩).documents = [docB] ∧
    ¬ ((loadData ⟨.good [docB], .corrupt, .missing⟩).documents = []) := by
  decide

/-- Witness for the corrected C6: a corrupt documents file yields the empty
store, and a corrupt sections file empties sections and embeddings. -/
theorem claim_C6_load_recovery_witness :
    loadData ⟨.corrupt, .missing, .missing⟩ = ⟨[], [], []⟩ ∧
    ((loadData ⟨.good [docB], .corrupt, .missing⟩).sections = [] ∧
      (loadData ⟨.good [docB], .corrupt, .missing⟩).embeddings = []) :=
  ⟨(claim_C6_load_recovery ⟨.corrupt, .missing, .missing⟩).1 rfl,
   (claim_C6_load_recovery ⟨.good [docB], .corrupt, .missing⟩).2.1 rfl⟩

/-! ### Persistence round trip (claim C7) -/

/-- Claim C7, corrected: `persist(); load()` reproduces documents and sections
exactly, and the embedding rows exactly **when the embedding list is
non-empty**.  When it is empty, `_save_data` skips writing `embeddings.npy`
(`if len(self.embeddings) > 0`), so whatever embedding file already sits on
disk is what `load` brings back — the round trip resurrects stale rows
instead of reproducing the empty list. -/
theorem claim_C7_roundtrip (st : Store) (d : Disk) :
    loadData (saveData st d) =
      ⟨st.documents, st.sections,
       if st.embeddings.length > 0 then st.embeddings else fileElse d.embsFile⟩ := by
  rcases st with ⟨docs, secs, embs⟩
  rcases d with ⟨df, sf, ef⟩
  by_cases h : embs.length > 0
  · simp only [saveData, if_pos h, loadData, fileElse]
  · simp only [saveData, if_neg h, loadData]
    cases ef <;> rfl

/-- Counterexample to C7 as stated: persisting the empty store over a disk
that still carries an embeddings file and loading back yields that stale
embedding row, not the empty store. -/
theorem claim_C7_cex :
    loadData (saveData emptyStore ⟨.missing, .missing, .good [[⟨1, 1⟩]]⟩) ≠
      emptyStore := by
  decide

/-! ### Misaligned load (claim C8) -/

/-- Claim C8 (code bug): the spec requires `load` to reject or repair a state
where the persisted embedding row count differs from the section count, but
`_load_data` performs no such check: a disk holding two sections and one
embedding row loads into a store with `len(sections) = 2` and
`len(embeddings) = 1`, silently accepted. -/
theorem claim_C8_misaligned_load_accepted :
    (loadData ⟨.missing, .good [secB, secC], .good [[⟨1, 1⟩]]⟩).sections.length = 2 ∧
    (loadData ⟨.missing, .good [secB, secC], .good [[⟨1, 1⟩]]⟩).embeddings.length = 1 := by
  decide

/-! ### Partial ingestion on embedding failure (claim C10) -/

theorem appendLoop_stops (embedF : PyStr → Option Embedding) :
    ∀ (k : Nat) (secs : List Sec) (st : Store)
      (hsucc : ∀ i (h2 : i < secs.length), i < k →
        (embedF ((secs.get ⟨i, h2⟩).content.take 8000)).isSome)
      (hk : k < secs.length)
      (hfail : embedF ((secs.get ⟨k, hk⟩).content.take 8000) = none),
      appendLoop embedF secs st =
        ({ st with
            sections := st.sections ++ secs.take k,
            embeddings := st.embeddings ++
              (secs.take k).map (fun s => (embedF (s.content.take 8000)).getD []) },
         false) := by
  intro k
  induction k with
  | zero =>
    intro secs st hsucc hk hfail
    cases secs with
    | nil => exact absurd hk (by simp)
    | cons s rest =>
      simp only [appendLoop, List.get] at hfail ⊢
      rw [hfail]
      simp
  | succ k ih =>
    intro secs st hsucc hk hfail
    cases secs with
    | nil => exact absurd hk (by simp)
    | cons s rest =>
      have h0 : (embedF (s.content.take 8000)).isSome :=
        hsucc 0 (by simp) (by omega)
      obtain ⟨v, hv⟩ := Option.isSome_iff_exists.mp h0
      simp only [appendLoop, hv]
      have hrec := ih rest
        { st with sections := st.sections ++ [s], embeddings := st.embeddings ++ [v] }
        (fun i h2 hik => hsucc (i + 1) (by simpa using Nat.succ_lt_succ h2) (by omega))
        (by simpa using Nat.lt_of_succ_lt_succ hk)
        (by
          have : (rest.get ⟨k, by simpa using Nat.lt_of_succ_lt_succ hk⟩) =
              ((s :: rest).get ⟨k + 1, hk⟩) := rfl
          rw [this]
          exact hfail)
      rw [hrec]
      simp only [List.take_succ_cons, List.map_cons, hv, Option.getD_some]
      refine congrArg (fun z => (z, false)) ?_
      refine congrArg₂ (fun a b => Store.mk st.documents a b) ?_ ?_
      · simp
      · simp

/-- Claim C10: if the embedding oracle fails on section `k` during
`process_document`, the in-memory store keeps the newly appended document
record and exactly the first `k` `(section, embedding)` pairs — best-effort,
not all-or-nothing — `len(sections) == len(embeddings)` is preserved, and
nothing reaches durable storage (`_save_data` is never called). -/
theorem claim_C10_partial_ingest (st : Store) (d : Disk) (inp : DocInput)
    (embedF : PyStr → Option Embedding) (k : Nat)
    (hk : k < (splitIntoSections inp.text inp.docId inp.secIds inp.seg).length)
    (hsucc : ∀ i (h2 : i < (splitIntoSections inp.text inp.docId inp.secIds inp.seg).length),
      i < k →
      (embedF (((splitIntoSections inp.text inp.docId inp.secIds inp.seg).get
        ⟨i, h2⟩).content.take 8000)).isSome)
    (hfail : embedF (((splitIntoSections inp.text inp.docId inp.secIds inp.seg).get
      ⟨k, hk⟩).content.take 8000) = none)
    (hA : Aligned st) :
    (process_document st d inp embedF).1.documents = st.documents ++ [mkDocument inp] ∧
    (process_document st d inp embedF).1.sections =
      st.sections ++ (splitIntoSections inp.text inp.docId inp.secIds inp.seg).take k ∧
    (process_document st d inp embedF).1.embeddings.length = st.embeddings.length + k ∧
    Aligned (process_document st d inp embedF).1 ∧
    (process_document st d inp embedF).2.1 = d ∧
    (process_document st d inp embedF).2.2 = false := by
  have hstop := appendLoop_stops embedF k
    (splitIntoSections inp.text inp.docId inp.secIds inp.seg)
    { st with documents := st.documents ++ [mkDocument inp] } hsucc hk hfail
  have hlen : ((splitIntoSections inp.text inp.docId inp.secIds inp.seg).take k).length = k := by
    rw [List.length_take]
    omega
  have hpd : process_document st d inp embedF =
      ({ documents := st.documents ++ [mkDocument inp],
         sections := st.sections ++
           (splitIntoSections inp.text inp.docId inp.secIds inp.seg).take k,
         embeddings := st.embeddings ++
           ((splitIntoSections inp.text inp.docId inp.secIds inp.seg).take k).map
             (fun s => (embedF (s.content.take 8000)).getD []) }, d, false) := by
    simp only [process_document, hstop]
  rw [hpd]
  refine ⟨rfl, rfl, ?_, ?_, rfl, rfl⟩
  · simp only [List.length_append, List.length_map, hlen]
  · simp only [Aligned, List.length_append, List.length_map, hlen]
    simp only [Aligned] at hA
    omega

/-- A concrete embedding oracle that succeeds only on the content `"aa"`. -/
def embFailBB : PyStr → Option Embedding :=
  fun s => if s = "aa".data then some [⟨1, 1⟩] else none

/-- Witness for C10: ingesting the two-paragraph document `"aa\n\nbb"` with
an oracle that fails on `"bb"` keeps the document and the first pair only,
stays aligned, and does not touch the disk. -/
theorem claim_C10_partial_ingest_witness :
    (process_document emptyStore diskM inpA embFailBB).1.documents =
      emptyStore.documents ++ [mkDocument inpA] ∧
    (process_document emptyStore diskM inpA embFailBB).1.sections =
      emptyStore.sections ++
        (splitIntoSections inpA.text inpA.docId inpA.secIds inpA.seg).take 1 ∧
    (process_document emptyStore diskM inpA embFailBB).1.embeddings.length =
      emptyStore.embeddings.length + 1 ∧
    Aligned (process_document emptyStore diskM inpA embFailBB).1 ∧
    (process_document emptyStore diskM inpA embFailBB).2.1 = diskM ∧
    (process_document emptyStore diskM inpA embFailBB).2.2 = false :=
  claim_C10_partial_ingest emptyStore diskM inpA embFailBB 1
    (by decide)
    (by
      intro i h2 hik
      have hi : i = 0 := by omega
      subst hi
      have hge : (splitIntoSections inpA.text inpA.docId inpA.secIds inpA.seg).get ⟨0, h2⟩ =
          (splitIntoSections inpA.text inpA.docId inpA.secIds inpA.seg).get ⟨0, by decide⟩ := rfl
      rw [hge]
      decide)
    (by decide)
    rfl

/-! ### Network builder (claim C9) -/

theorem Rq.mul_comm (x y : Rq) : Rq.mul x y = Rq.mul y x := by
  simp [Rq.mul, Int.mul_comm]

theorem dotQ_comm : ∀ (a b : Embedding), dotQ a b = dotQ b a := by
  intro a
  induction a with
  | nil => intro b; cases b <;> rfl
  | cons x a' ih =>
    intro b
    cases b with
    | nil => rfl
    | cons y b' =>
      rw [dotQ_cons, dotQ_cons, ih, Rq.mul_comm]

theorem mem_pairsFrom : ∀ (l : List α) (p : α × α), p ∈ pairsFrom l → p.1 ∈ l ∧ p.2 ∈ l := by
  intro l
  induction l with
  | nil => intro p hp; exact absurd hp (by simp [pairsFrom])
  | cons h t ih =>
    intro p hp
    rw [pairsFrom, List.mem_append] at hp
    rcases hp with hp | hp
    · rw [List.mem_map] at hp
      obtain ⟨y, hy, rfl⟩ := hp
      exact ⟨by simp, by simp [hy]⟩
    · obtain ⟨h1, h2⟩ := ih p hp
      exact ⟨by simp [h1], by simp [h2]⟩

theorem pairsFrom_ne : ∀ (l : List α), l.Nodup → ∀ p ∈ pairsFrom l, p.1 ≠ p.2 := by
  intro l
  induction l with
  | nil => intro _ p hp; exact absurd hp (by simp [pairsFrom])
  | cons h t ih =>
    intro hnd p hp
    rw [List.nodup_cons] at hnd
    rw [pairsFrom, List.mem_append] at hp
    rcases hp with hp | hp
    · rw [List.mem_map] at hp
      obtain ⟨y, hy, rfl⟩ := hp
      intro hcon
      apply hnd.1
      have hhy : h = y := hcon
      rw [hhy]
      exact hy
    · exact ih hnd.2 p hp

/-- Matches the two orientations of the unordered id pair `{x, y}`. -/
def pairMatch [DecidableEq α] (x y : α) (p : α × α) : Bool :=
  (decide (p.1 = x) && decide (p.2 = y)) || (decide (p.1 = y) && decide (p.2 = x))

/-- Matches an edge connecting ids `x` and `y` in either orientation. -/
def edgeMatch (x y : PyStr) (e : NetEdge) : Bool :=
  (decide (e.source = x) && decide (e.target = y)) ||
    (decide (e.source = y) && decide (e.target = x))

theorem pairMatch_iff [DecidableEq α] {x y : α} {p : α × α} :
    pairMatch x y p = true ↔ ((p.1 = x ∧ p.2 = y) ∨ (p.1 = y ∧ p.2 = x)) := by
  simp [pairMatch]

theorem countP_pairsFrom [DecidableEq α] :
    ∀ (l : List α) (x y : α), l.Nodup → x ∈ l → y ∈ l → x ≠ y →
      (pairsFrom l).countP (pairMatch x y) = 1 := by
  intro l
  induction l with
  | nil => intro x y _ hx _ _; exact absurd hx (by simp)
  | cons h t ih =>
    intro x y hnd hx hy hxy
    rw [List.nodup_cons] at hnd
    rw [pairsFrom, List.countP_append, List.countP_map]
    by_cases hhx : h = x
    · subst hhx
      have hyt : y ∈ t := by
        rcases List.mem_cons.mp hy with rfl | hyt
        · exact absurd rfl hxy.symm
        · exact hyt
      have hmap : List.countP (pairMatch h y ∘ fun z => (h, z)) t =
          List.countP (fun z => z == y) t := by
        refine List.countP_congr ?_
        intro z hz
        rw [Function.comp_apply, pairMatch_iff, beq_iff_eq]
        constructor
        · intro hb
          rcases hb with ⟨_, hb⟩ | ⟨hb, _⟩
          · exact hb
          · exact absurd hb hxy
        · intro hb
          exact Or.inl ⟨rfl, hb⟩
      have hrest : List.countP (pairMatch h y) (pairsFrom t) = 0 := by
        rw [List.countP_eq_zero]
        intro p hp hb
        rcases pairMatch_iff.mp hb with ⟨hb1, _⟩ | ⟨_, hb2⟩
        · exact hnd.1 (hb1 ▸ (mem_pairsFrom t p hp).1)
        · exact hnd.1 (hb2 ▸ (mem_pairsFrom t p hp).2)
      rw [hmap, hrest, ← List.count, List.count_eq_one_of_mem hnd.2 hyt]
    · by_cases hhy : h = y
      · subst hhy
        have hxt : x ∈ t := by
          rcases List.mem_cons.mp hx with rfl | hxt
          · exact absurd rfl hhx
          · exact hxt
        have hmap : List.countP (pairMatch x h ∘ fun z => (h, z)) t =
            List.countP (fun z => z == x) t := by
          refine List.countP_congr ?_
          intro z hz
          rw [Function.comp_apply, pairMatch_iff, beq_iff_eq]
          constructor
          · intro hb
            rcases hb with ⟨hb, _⟩ | ⟨_, hb⟩
            · exact absurd hb.symm hxy
            · exact hb
          · intro hb
            exact Or.inr ⟨rfl, hb⟩
        have hrest : List.countP (pairMatch x h) (pairsFrom t) = 0 := by
          rw [List.countP_eq_zero]
          intro p hp hb
          rcases pairMatch_iff.mp hb with ⟨_, hb2⟩ | ⟨hb1, _⟩
          · exact hnd.1 (hb2 ▸ (mem_pairsFrom t p hp).2)
          · exact hnd.1 (hb1 ▸ (mem_pairsFrom t p hp).1)
        rw [hmap, hrest, ← List.count, List.count_eq_one_of_mem hnd.2 hxt]
      · have hxt : x ∈ t := by
          rcases List.mem_cons.mp hx with rfl | hxt
          · exact absurd rfl hhx
          · exact hxt
        have hyt : y ∈ t := by
          rcases List.mem_cons.mp hy with rfl | hyt
          · exact absurd rfl hhy
          · exact hyt
        have hmap : List.countP (pairMatch x y ∘ fun z => (h, z)) t = 0 := by
          rw [List.countP_eq_zero]
          intro z hz hb
          rcases pairMatch_iff.mp hb with ⟨hb1, _⟩ | ⟨hb1, _⟩
          · exact hhx hb1
          · exact hhy hb1
        rw [hmap, ih x y hnd.2 hxt hyt hxy]

theorem simGT08_iff {d m : Rq} (hm : 0 < m.val) :
    simGT08 d m = true ↔ (4 / 5 : ℝ) < (d.val : ℝ) / Real.sqrt ((m.val : ℚ) : ℝ) := by
  rw [simGT08, Bool.and_eq_true, Rq.blt_iff, Rq.blt_iff, Rq.val_mul, Rq.val_mul, Rq.val_mul,
    Rq.val_ofInt, Rq.val_ofInt, Rq.val_ofInt]
  have hm' : (0 : ℝ) < ((m.val : ℚ) : ℝ) := by exact_mod_cast hm
  have hs : (0 : ℝ) < Real.sqrt ((m.val : ℚ) : ℝ) := Real.sqrt_pos.mpr hm'
  have hss : Real.sqrt ((m.val : ℚ) : ℝ) * Real.sqrt ((m.val : ℚ) : ℝ) = ((m.val : ℚ) : ℝ) :=
    Real.mul_self_sqrt hm'.le
  rw [lt_div_iff hs]
  constructor
  · rintro ⟨hd, hlt⟩
    have hd' : (0 : ℝ) < (d.val : ℝ) := by exact_mod_cast hd
    have hlt' : (16 : ℝ) * ((m.val : ℚ) : ℝ) < 25 * ((d.val : ℝ) * (d.val : ℝ)) := by
      exact_mod_cast hlt
    nlinarith [hss, hs, hd', mul_pos hs hs]
  · intro h
    have hd' : (0 : ℝ) < (d.val : ℝ) := lt_trans (by positivity) h
    have hlt' : (16 : ℝ) * ((m.val : ℚ) : ℝ) < 25 * ((d.val : ℝ) * (d.val : ℝ)) := by
      nlinarith [hss, hs, hd', h]
    exact ⟨by exact_mod_cast hd', by exact_mod_cast hlt'⟩

theorem edgeMatch_iff {x y : PyStr} {e : NetEdge} :
    edgeMatch x y e = true ↔
      ((e.source = x ∧ e.target = y) ∨ (e.source = y ∧ e.target = x)) := by
  simp [edgeMatch]

theorem edgeFor_eq_some {st : Store} {p : PyStr × PyStr} {e : NetEdge}
    (h : edgeFor st p = some e) :
    ∃ c1 c2, docCentroid st p.1 = some c1 ∧ docCentroid st p.2 = some c2 ∧
      simGT08 (dotQ c1 c2) (Rq.mul (normSq c1) (normSq c2)) = true ∧
      e = ⟨p.1, p.2, dotQ c1 c2, Rq.mul (normSq c1) (normSq c2)⟩ := by
  rcases h1 : docCentroid st p.1 with _ | c1
  · simp [edgeFor, h1] at h
  · rcases h2 : docCentroid st p.2 with _ | c2
    · simp [edgeFor, h1, h2] at h
    · simp only [edgeFor, h1, h2] at h
      by_cases hgt : simGT08 (dotQ c1 c2) (Rq.mul (normSq c1) (normSq c2)) = true
      · rw [if_pos hgt] at h
        exact ⟨c1, c2, rfl, rfl, hgt, (Option.some.inj h).symm⟩
      · rw [if_neg hgt] at h
        exact absurd h (by simp)

/-- Claim C9: `get_standards_network` returns empty nodes and edges below two
sections; otherwise it emits one node per document, no self-edges, and for
each unordered pair of distinct documents that both have a centroid exactly
one edge when their centroid cosine similarity strictly exceeds `0.8` — its
weight being that similarity, carried as the exact pair
`(dot, ‖c1‖²·‖c2‖²)` — and no edge otherwise. -/
theorem claim_C9_network (st : Store) (d1 d2 : Document) (c1 c2 : Embedding)
    (hn2 : 2 ≤ st.sections.length)
    (hnd : (st.documents.map (fun doc => doc.id)).Nodup)
    (hd1 : d1 ∈ st.documents) (hd2 : d2 ∈ st.documents) (hne : d1.id ≠ d2.id)
    (hc1 : docCentroid st d1.id = some c1) (hc2 : docCentroid st d2.id = some c2)
    (hw1 : VecWF c1) (hw2 : VecWF c2)
    (hz1 : (normSq c1).val ≠ 0) (hz2 : (normSq c2).val ≠ 0) :
    (∀ st' : Store, st'.sections.length < 2 → get_standards_network st' = ([], [])) ∧
    ((get_standards_network st).1 =
      st.documents.map (fun doc => ⟨doc.id, basename doc.filename, 10⟩)) ∧
    (∀ e ∈ (get_standards_network st).2, e.source ≠ e.target) ∧
    (((4 / 5 : ℝ) < ((dotQ c1 c2).val : ℝ) /
        (Real.sqrt ((normSq c1).val : ℝ) * Real.sqrt ((normSq c2).val : ℝ)) →
      (get_standards_network st).2.countP (edgeMatch d1.id d2.id) = 1) ∧
     (¬ ((4 / 5 : ℝ) < ((dotQ c1 c2).val : ℝ) /
        (Real.sqrt ((normSq c1).val : ℝ) * Real.sqrt ((normSq c2).val : ℝ))) →
      (get_standards_network st).2.countP (edgeMatch d1.id d2.id) = 0)) ∧
    (∀ e ∈ (get_standards_network st).2, edgeMatch d1.id d2.id e = true →
      e.weightNum = dotQ c1 c2 ∧ e.weightDen2 = Rq.mul (normSq c1) (normSq c2)) := by
  have hedges : (get_standards_network st).2 =
      (pairsFrom (st.documents.map (fun doc => doc.id))).filterMap (edgeFor st) := by
    rw [get_standards_network, if_neg (by omega)]
  have hi1 : d1.id ∈ st.documents.map (fun doc => doc.id) :=
    List.mem_map.mpr ⟨d1, hd1, rfl⟩
  have hi2 : d2.id ∈ st.documents.map (fun doc => doc.id) :=
    List.mem_map.mpr ⟨d2, hd2, rfl⟩
  have hp1 : 0 < (normSq c1).val := (normSq_val_nonneg c1 hw1).lt_of_ne (Ne.symm hz1)
  have hp2 : 0 < (normSq c2).val := (normSq_val_nonneg c2 hw2).lt_of_ne (Ne.symm hz2)
  have hMpos : 0 < (Rq.mul (normSq c1) (normSq c2)).val := by
    rw [Rq.val_mul]
    exact mul_pos hp1 hp2
  have hsqrt : Real.sqrt ((Rq.mul (normSq c1) (normSq c2)).val : ℝ) =
      Real.sqrt ((normSq c1).val : ℝ) * Real.sqrt ((normSq c2).val : ℝ) := by
    rw [Rq.val_mul]
    push_cast
    rw [Real.sqrt_mul (by exact_mod_cast hp1.le)]
  have hcond : ((4 / 5 : ℝ) < ((dotQ c1 c2).val : ℝ) /
      (Real.sqrt ((normSq c1).val : ℝ) * Real.sqrt ((normSq c2).val : ℝ))) ↔
      simGT08 (dotQ c1 c2) (Rq.mul (normSq c1) (normSq c2)) = true := by
    rw [simGT08_iff hMpos, hsqrt]
  have hpt : ∀ p ∈ pairsFrom (st.documents.map (fun doc => doc.id)),
      (((edgeFor st p).map (edgeMatch d1.id d2.id)).getD false = true ↔
        (pairMatch d1.id d2.id p &&
          simGT08 (dotQ c1 c2) (Rq.mul (normSq c1) (normSq c2))) = true) := by
    intro p hp
    by_cases hpm : pairMatch d1.id d2.id p = true
    · rw [hpm, Bool.true_and]
      rcases pairMatch_iff.mp hpm with ⟨h1, h2⟩ | ⟨h1, h2⟩
      · rcases p with ⟨px, py⟩
        simp only at h1 h2
        subst h1
        subst h2
        simp only [edgeFor, hc1, hc2]
        by_cases hgt : simGT08 (dotQ c1 c2) (Rq.mul (normSq c1) (normSq c2)) = true
        · rw [if_pos hgt, hgt]
          simp [edgeMatch]
        · rw [if_neg hgt]
          simp only [Option.map_none', Option.getD_none]
          constructor
          · intro hcon; exact absurd hcon (by simp)
          · intro hcon; exact absurd hcon hgt
      · rcases p with ⟨px, py⟩
        simp only at h1 h2
        subst h1
        subst h2
        simp only [edgeFor, hc1, hc2, dotQ_comm c2 c1, Rq.mul_comm (normSq c2) (normSq c1)]
        by_cases hgt : simGT08 (dotQ c1 c2) (Rq.mul (normSq c1) (normSq c2)) = true
        · rw [if_pos hgt, hgt]
          simp [edgeMatch]
        · rw [if_neg hgt]
          simp only [Option.map_none', Option.getD_none]
          constructor
          · intro hcon; exact absurd hcon (by simp)
          · intro hcon; exact absurd hcon hgt
    · have hpm' : pairMatch d1.id d2.id p = false := Bool.eq_false_iff.mpr hpm
      rw [hpm', Bool.false_and]
      rcases hf : edgeFor st p with _ | e
      · simp
      · obtain ⟨a, b, _, _, _, he⟩ := edgeFor_eq_some hf
        subst he
        simp only [Option.map_some', Option.getD_some]
        constructor
        · intro hcon
          rcases edgeMatch_iff.mp hcon with ⟨hs1, hs2⟩ | ⟨hs1, hs2⟩
          · exact (hpm (pairMatch_iff.mpr (Or.inl ⟨hs1, hs2⟩))).elim
          · exact (hpm (pairMatch_iff.mpr (Or.inr ⟨hs1, hs2⟩))).elim
        · intro hcon
          exact absurd hcon (by simp)
  have hcount : (get_standards_network st).2.countP (edgeMatch d1.id d2.id) =
      List.countP (fun p => pairMatch d1.id d2.id p &&
        simGT08 (dotQ c1 c2) (Rq.mul (normSq c1) (normSq c2)))
        (pairsFrom (st.documents.map (fun doc => doc.id))) := by
    rw [hedges, List.countP_filterMap]
    exact List.countP_congr hpt
  refine ⟨?_, ?_, ?_, ⟨?_, ?_⟩, ?_⟩
  · intro st' h
    rw [get_standards_network, if_pos h]
  · rw [get_standards_network, if_neg (by omega)]
  · intro e he
    rw [hedges] at he
    obtain ⟨p, hp, hfp⟩ := List.mem_filterMap.mp he
    obtain ⟨a, b, _, _, _, he'⟩ := edgeFor_eq_some hfp
    subst he'
    exact pairsFrom_ne _ hnd p hp
  · intro hgt
    rw [hcount]
    have hgt' := hcond.mp hgt
    have : List.countP (fun p => pairMatch d1.id d2.id p &&
        simGT08 (dotQ c1 c2) (Rq.mul (normSq c1) (normSq c2)))
        (pairsFrom (st.documents.map (fun doc => doc.id))) =
        List.countP (pairMatch d1.id d2.id)
        (pairsFrom (st.documents.map (fun doc => doc.id))) := by
      refine List.countP_congr ?_
      intro p hp
      rw [hgt', Bool.and_true]
    rw [this]
    exact countP_pairsFrom _ d1.id d2.id hnd hi1 hi2 hne
  · intro hgt
    rw [hcount, List.countP_eq_zero]
    intro p hp hb
    rw [Bool.and_eq_true] at hb
    exact hgt (hcond.mpr hb.2)
  · intro e he hm
    rw [hedges] at he
    obtain ⟨p, hp, hfp⟩ := List.mem_filterMap.mp he
    obtain ⟨a, b, ha, hb, _, he'⟩ := edgeFor_eq_some hfp
    subst he'
    rcases edgeMatch_iff.mp hm with ⟨hs1, hs2⟩ | ⟨hs1, hs2⟩
    · simp only at hs1 hs2
      rw [hs1] at ha
      rw [hs2] at hb
      have ha' : a = c1 := Option.some.inj (ha.symm.trans hc1)
      have hb' : b = c2 := Option.some.inj (hb.symm.trans hc2)
      subst ha'
      subst hb'
      exact ⟨rfl, rfl⟩
    · simp only at hs1 hs2
      rw [hs1] at ha
      rw [hs2] at hb
      have ha' : a = c2 := Option.some.inj (ha.symm.trans hc2)
      have hb' : b = c1 := Option.some.inj (hb.symm.trans hc1)
      constructor
      · show dotQ a b = dotQ c1 c2
        rw [ha', hb']
        exact dotQ_comm c2 c1
      · show Rq.mul (normSq a) (normSq b) = Rq.mul (normSq c1) (normSq c2)
        rw [ha', hb']
        exact Rq.mul_comm (normSq c2) (normSq c1)

/-- First document of the concrete network store. -/
def docD1 : Document := ⟨"d1".data, "f1.txt".data, "txt".data, 1, "t".data⟩

/-- Second document of the concrete network store. -/
def docD2 : Document := ⟨"d2".data, "f2.txt".data, "txt".data, 1, "t".data⟩

/-- A store with two one-section documents holding identical embeddings, so
their centroid similarity is `1 > 0.8`. -/
def storeD : Store :=
  ⟨[docD1, docD2],
   [⟨"s1".data, "d1".data, 0, "T".data, "c".data, 1⟩,
    ⟨"s2".data, "d2".data, 0, "T".data, "c".data, 1⟩],
   [[⟨1, 1⟩], [⟨1, 1⟩]]⟩

/-- Witness for C9 on `storeD`: both documents have centroid `[1]`. -/
theorem claim_C9_network_witness :
    (∀ st' : Store, st'.sections.length < 2 → get_standards_network st' = ([], [])) ∧
    ((get_standards_network storeD).1 =
      storeD.documents.map (fun doc => ⟨doc.id, basename doc.filename, 10⟩)) ∧
    (∀ e ∈ (get_standards_network storeD).2, e.source ≠ e.target) ∧
    (((4 / 5 : ℝ) < ((dotQ [(⟨1, 1⟩ : Rq)] [⟨1, 1⟩]).val : ℝ) /
        (Real.sqrt ((normSq [(⟨1, 1⟩ : Rq)]).val : ℝ) *
          Real.sqrt ((normSq [(⟨1, 1⟩ : Rq)]).val : ℝ)) →
      (get_standards_network storeD).2.countP (edgeMatch docD1.id docD2.id) = 1) ∧
     (¬ ((4 / 5 : ℝ) < ((dotQ [(⟨1, 1⟩ : Rq)] [⟨1, 1⟩]).val : ℝ) /
        (Real.sqrt ((normSq [(⟨1, 1⟩ : Rq)]).val : ℝ) *
          Real.sqrt ((normSq [(⟨1, 1⟩ : Rq)]).val : ℝ))) →
      (get_standards_network storeD).2.countP (edgeMatch docD1.id docD2.id) = 0)) ∧
    (∀ e ∈ (get_standards_network storeD).2, edgeMatch docD1.id docD2.id e = true →
      e.weightNum = dotQ [(⟨1, 1⟩ : Rq)] [⟨1, 1⟩] ∧
      e.weightDen2 = Rq.mul (normSq [(⟨1, 1⟩ : Rq)]) (normSq [(⟨1, 1⟩ : Rq)])) :=
  claim_C9_network storeD docD1 docD2 [⟨1, 1⟩] [⟨1, 1⟩]
    (by decide) (by decide) (by decide) (by decide) (by decide)
    (by decide) (by decide) (by decide) (by decide)
    (by rw [normSq_oneOne]; exact val_oneOne_ne_zero)
    (by rw [normSq_oneOne]; exact val_oneOne_ne_zero)

end SSA
